import Mathlib

/-
Verification of the matrix-helper engine of this repository: the cell
encoder (format_element), the matrix serializer, the matrix builder
(generate_matrix) and the register expression evaluator
(evaluate_equation), shallowly embedded over List Char so that every
definition is executable.  Python strings are modelled as List Char;
Python floats as Rat; the general-purpose eval step of the evaluator is
an explicit functional parameter, since its body is a library primitive
and every claim treats it as an oracle that either returns a value or
raises.
-/

/-- The test `"sqrt" in element`: true when the characters s,q,r,t occur
consecutively somewhere in the list. -/
def containsSqrt : List Char → Bool
  | 's' :: 'q' :: 'r' :: 't' :: _ => true
  | _ :: rest => containsSqrt rest
  | [] => false

/-- The test `"div" in element`. -/
def containsDiv : List Char → Bool
  | 'd' :: 'i' :: 'v' :: _ => true
  | _ :: rest => containsDiv rest
  | [] => false

/-- The test `"reg" in equation`. -/
def containsReg : List Char → Bool
  | 'r' :: 'e' :: 'g' :: _ => true
  | _ :: rest => containsReg rest
  | [] => false

/-- `element.split("div")`: split on every non-overlapping occurrence of
the separator, scanning left to right, exactly as the Python method. -/
def splitDiv : List Char → List (List Char)
  | [] => [[]]
  | 'd' :: 'i' :: 'v' :: rest => [] :: splitDiv rest
  | c :: rest =>
    match splitDiv rest with
    | [] => [[c]]
    | p :: ps => (c :: p) :: ps

/-- `equation.split("reg")`, same shape as `splitDiv`. -/
def splitRegStr : List Char → List (List Char)
  | [] => [[]]
  | 'r' :: 'e' :: 'g' :: rest => [] :: splitRegStr rest
  | c :: rest =>
    match splitRegStr rest with
    | [] => [[c]]
    | p :: ps => (c :: p) :: ps

/-- One left-to-right pass of the regex substitution of sqrt runs, pattern
sqrt followed by a digit group, replacement an @RT group holding the digits:
at each position the scanner matches the literal letters s,q,r,t followed
by a maximal non-empty digit run; a match is replaced and scanning resumes
after it, otherwise the scanner advances one character.  Fuel-indexed so
that the kernel can evaluate it; one unit of fuel is consumed per step, so
`length + 1` units always suffice. -/
def sqrtSubFuel : Nat → List Char → List Char
  | 0, l => l
  | fuel + 1, 's' :: 'q' :: 'r' :: 't' :: d :: rest =>
    if d.isDigit then
      ['@', 'R', 'T', '{'] ++
        (((d :: rest).takeWhile Char.isDigit) ++
          (['}'] ++ sqrtSubFuel fuel ((d :: rest).dropWhile Char.isDigit)))
    else
      's' :: sqrtSubFuel fuel ('q' :: 'r' :: 't' :: d :: rest)
  | fuel + 1, c :: rest => c :: sqrtSubFuel fuel rest
  | _ + 1, [] => []

/-- The global sqrt-to-@RT rewrite of `format_element`. -/
def sqrtSub (l : List Char) : List Char :=
  sqrtSubFuel (l.length + 1) l

/-- The first statement of `format_element`: rewrite sqrt runs only when
the token contains the letters sqrt. -/
def sqrtStep (element : List Char) : List Char :=
  if containsSqrt element then sqrtSub element else element

/-- Body of `format_element`, fuel-indexed because the recursion of the
source is on split parts of the sqrt-rewritten token, which the
termination checker cannot bound syntactically.  The top-level wrapper
passes enough fuel for every run the source can perform. -/
def formatElementFuel : Nat → List Char → List Char
  | 0, element => element
  | fuel + 1, element =>
    let e := sqrtStep element
    if containsDiv e then
      match splitDiv e with
      | [l, r] =>
        ['@', 'D', 'I', 'V', '{'] ++
          (formatElementFuel fuel l ++
            ([';'] ++ (formatElementFuel fuel r ++ ['}'])))
      | _ => e
    else e

/-- `format_element(element)` of the source. -/
def format_element (element : List Char) : List Char :=
  formatElementFuel (element.length + 1) element

/-- `parse_matrix(elements, rows, cols)`: the row-major reshape of the flat
element list into a rows-by-cols grid, as `np.array(...).reshape((rows, cols))`
performs under its precondition `len(elements) == rows*cols`. -/
def parse_matrix (elements : List A) (rows cols : Nat) : List (List A) :=
  (List.range rows).map (fun i => (elements.drop (i * cols)).take cols)

/-- `Matrix.__str__`: open with @MATX and two braces, join the cells of each
row with semicolons, append the three-character separator between
consecutive rows, close with two braces.  The per-cell rendering
(Python `str` on the stored scalars) is a parameter. -/
def matrixStr (cellStr : A → List Char) (m : List (List A)) : List Char :=
  ['@', 'M', 'A', 'T', 'X', '{', '{'] ++
    ((List.intercalate ['}', ';', '{'] (m.map (fun row => List.intercalate [';'] (row.map cellStr)))) ++
      ['}', '}'])

/-- A value a register can hold: Python `None`, a Python `int`, a scalar
number, or a NumPy matrix (entries modelled as rationals). -/
inductive PyVal where
  | pyNone : PyVal
  | pyInt : Int → PyVal
  | pyNum : Rat → PyVal
  | pyMatrix : List (List Rat) → PyVal
deriving DecidableEq

/-- The register dictionary: its keys are fixed to the five names A, B, C,
D, I for the whole process lifetime (no code path adds or removes a key). -/
structure Regs where
  A : PyVal
  B : PyVal
  C : PyVal
  D : PyVal
  I : PyVal
deriving DecidableEq

/-- The module-level initializer
`registers = {'A': None, 'B': None, 'C': None, 'D': None, 'I': 1}`. -/
def registers_init : Regs :=
  ⟨PyVal.pyNone, PyVal.pyNone, PyVal.pyNone, PyVal.pyNone, PyVal.pyInt 1⟩

/-- `registers.keys()`. -/
def regKeys : List (List Char) := [['A'], ['B'], ['C'], ['D'], ['I']]

/-- Dictionary write `registers[name] = v` for a name already in the key
set (the only way the source writes). -/
def Regs.set (rs : Regs) (name : List Char) (v : PyVal) : Regs :=
  if name = ['A'] then ⟨v, rs.B, rs.C, rs.D, rs.I⟩
  else if name = ['B'] then ⟨rs.A, v, rs.C, rs.D, rs.I⟩
  else if name = ['C'] then ⟨rs.A, rs.B, v, rs.D, rs.I⟩
  else if name = ['D'] then ⟨rs.A, rs.B, rs.C, v, rs.I⟩
  else if name = ['I'] then ⟨rs.A, rs.B, rs.C, rs.D, v⟩
  else rs

/-- Dictionary read `registers.get(name)`: `Option.none` when the name is
not a key. -/
def Regs.get (rs : Regs) (name : List Char) : Option PyVal :=
  if name = ['A'] then some rs.A
  else if name = ['B'] then some rs.B
  else if name = ['C'] then some rs.C
  else if name = ['D'] then some rs.D
  else if name = ['I'] then some rs.I
  else Option.none

/-- The user-visible messages the engine enqueues.  Each constructor
stands for one literal format string of the source:
`invalidRegister` for the invalid register assignment message,
`shapeMismatch` for the element-count message, `valueError` for the
dimension-and-numbers message of the ValueError handler,
`storedInRegister r` for the stored-in-register message,
`copiedToClipboard s` for the copied-to-clipboard message carrying the
serialized matrix, `resultMsg v` for the result message, and
`invalidEquation e` for the invalid-equation message carrying the text of
the caught exception. -/
inductive Msg where
  | invalidRegister : Msg
  | shapeMismatch : Msg
  | valueError : Msg
  | storedInRegister : List Char → Msg
  | copiedToClipboard : List Char → Msg
  | resultMsg : PyVal → Msg
  | invalidEquation : List Char → Msg
deriving DecidableEq

/-- The list comprehension `[float(format_element(el)) for el in elems]`:
the first failing conversion raises, aborting the whole list.  The float
parser itself is a parameter (a Python library primitive). -/
def floatList (pyFloat : List Char → Option Rat) : List (List Char) → Option (List Rat)
  | [] => some []
  | el :: rest =>
    match pyFloat (format_element el), floatList pyFloat rest with
    | some v, some vs => some (v :: vs)
    | _, _ => Option.none

/-- Observable outcome of one `generate_matrix` call: the register store
afterwards, the clipboard content (`Option.none` when no clipboard write
happened), and the enqueued messages, in order. -/
structure GenResult where
  registers : Regs
  clipboard : Option (List Char)
  messages : List Msg
deriving DecidableEq

/-- Continuation of `generate_matrix` after the register-directive check:
the shape check, the float conversion of every encoded element, the
reshape, the optional register store and the clipboard write. -/
def generateRest (pyFloat : List Char → Option Rat) (showF : Rat → List Char)
    (rows cols : Int) (tokens : List (List Char)) (regLetter : Option (List Char))
    (regs : Regs) : Option GenResult :=
  if (tokens.length : Int) ≠ rows * cols then
    some ⟨regs, Option.none, [Msg.shapeMismatch]⟩
  else
    match floatList pyFloat tokens with
    | Option.none => some ⟨regs, Option.none, [Msg.valueError]⟩
    | some vals =>
      if rows < 0 ∨ cols < 0 then some ⟨regs, Option.none, [Msg.valueError]⟩
      else
        let m := parse_matrix vals rows.toNat cols.toNat
        let s := matrixStr showF m
        match regLetter with
        | some rl =>
          some ⟨Regs.set regs rl (PyVal.pyMatrix m), some s,
            [Msg.storedInRegister rl, Msg.copiedToClipboard s]⟩
        | Option.none => some ⟨regs, some s, [Msg.copiedToClipboard s]⟩

/-- `generate_matrix` after the dimension fields have been parsed to the
integers `rows` and `cols` and the element entry has been split on
whitespace into `tokens`.  `pyFloat` models Python float parsing (its
failure is the ValueError the handler catches); `showF` models Python
`str` on a stored float.  The result is `Option.none` when the call dies
on an uncaught IndexError: with more tokens than `rows*cols` but fewer
than two tokens, the index -2 is out of range.  NumPy rejects negative
reshape dimensions with a ValueError, which the same handler catches. -/
def generate_matrix (pyFloat : List Char → Option Rat) (showF : Rat → List Char)
    (rows cols : Int) (tokens : List (List Char)) (regs : Regs) : Option GenResult :=
  if rows * cols < (tokens.length : Int) then
    if tokens.length < 2 then Option.none
    else
      let rn := (tokens.getD (tokens.length - 2) []).map Char.toLower
      let rl := (tokens.getD (tokens.length - 1) []).map Char.toUpper
      if rn ≠ ['r', 'e', 'g'] ∨ rl ∉ [['A'], ['B'], ['C'], ['D']] then
        some ⟨regs, Option.none, [Msg.invalidRegister]⟩
      else
        generateRest pyFloat showF rows cols (tokens.take (tokens.length - 2)) (some rl) regs
  else
    generateRest pyFloat showF rows cols tokens Option.none regs

/-- `equation.replace(needle, repl)` for a one-character needle: every
occurrence is replaced, scanning left to right. -/
def replace1 (c : Char) (repl : List Char) : List Char → List Char
  | [] => []
  | x :: rest =>
    if x = c then repl ++ replace1 c repl rest else x :: replace1 c repl rest

/-- The five chained replaces of `evaluate_equation`, turning each
register letter into a dictionary dereference, in source order A, B, C,
D, I. -/
def substRegisters (equation : List Char) : List Char :=
  replace1 'I' ("registers['I']".toList)
    (replace1 'D' ("registers['D']".toList)
      (replace1 'C' ("registers['C']".toList)
        (replace1 'B' ("registers['B']".toList)
          (replace1 'A' ("registers['A']".toList) equation))))

/-- Observable outcome of one completed `evaluate_equation` call. -/
structure EvalResult where
  registers : Regs
  messages : List Msg
deriving DecidableEq

/-- The directive-extraction prefix of `evaluate_equation`: when the
letters reg occur in the equation, `equation, reg_x = equation.split("reg")`
unpacks the split into exactly two parts — `Option.none` models the
uncaught ValueError when the split has more than two parts — then the
remainder is uppercased, its spaces removed, and checked against the key
set.  Returns the remaining expression text, the accepted target (if
any), and the messages enqueued so far. -/
def directiveStep (equation : List Char) :
    Option (List Char × Option (List Char) × List Msg) :=
  if containsReg equation then
    match splitRegStr equation with
    | [eqL, regR] =>
      let rx := replace1 ' ' [] (regR.map Char.toUpper)
      if rx ∈ regKeys then some (eqL, some rx, [])
      else some (eqL, Option.none, [Msg.invalidRegister])
    | _ => Option.none
  else some (equation, Option.none, [])

/-- `evaluate_equation` with the `eval` step abstracted as `evalFn`
(`Except.error e` models an exception carrying text `e`).  The try block
spans the register substitution, the evaluation, the optional register
store and the result message; its handler enqueues the invalid-equation
message.  The substitution itself cannot raise.  `Option.none` models the
uncaught unpacking error of the directive step. -/
def evaluate_equation (evalFn : Regs → List Char → Except (List Char) PyVal)
    (equation : List Char) (regs : Regs) : Option EvalResult :=
  match directiveStep equation with
  | Option.none => Option.none
  | some (eqn, regX, msgs0) =>
    match evalFn regs (substRegisters eqn) with
    | Except.error e => some ⟨regs, msgs0 ++ [Msg.invalidEquation e]⟩
    | Except.ok result =>
      match regX with
      | some rx =>
        some ⟨Regs.set regs rx result,
          msgs0 ++ [Msg.storedInRegister rx, Msg.resultMsg result]⟩
      | Option.none => some ⟨regs, msgs0 ++ [Msg.resultMsg result]⟩

/-- A concrete float parser mapping the single-digit tokens 1 to 4 to
their values, a fixture used to instantiate the parser parameter of the
build pipeline on concrete inputs. -/
def pyFloatDigits : List Char → Option Rat
  | ['1'] => some 1
  | ['2'] => some 2
  | ['3'] => some 3
  | ['4'] => some 4
  | _ => Option.none

theorem containsDiv_false_splitDiv (e : List Char) (h : containsDiv e = false) :
    splitDiv e = [e] := by
  induction e using splitDiv.induct with
  | case1 => rfl
  | case2 rest ih => simp [containsDiv] at h
  | case3 c rest hno hnil ih =>
    have hcd : containsDiv rest = false := by
      rw [containsDiv.eq_def] at h
      split at h
      · exact absurd h (by decide)
      · rename_i x r heq
        cases heq
        exact h
      · rename_i heq
        exact absurd heq (by simp)
    rw [ih hcd] at hnil
    exact absurd hnil (by simp)
  | case4 c rest hno p ps hp ih =>
    have hcd : containsDiv rest = false := by
      rw [containsDiv.eq_def] at h
      split at h
      · exact absurd h (by decide)
      · rename_i x r heq
        cases heq
        exact h
      · rename_i heq
        exact absurd heq (by simp)
    rw [ih hcd] at hp
    rw [splitDiv.eq_def]
    split
    · rename_i heq
      exact absurd heq (by simp)
    · rename_i r heq
      cases heq
      exact (hno r rfl rfl).elim
    · rename_i c2 r2 hno2 heq
      cases heq
      rw [ih hcd]

theorem containsReg_false_splitRegStr (e : List Char) (h : containsReg e = false) :
    splitRegStr e = [e] := by
  induction e using splitRegStr.induct with
  | case1 => rfl
  | case2 rest ih => simp [containsReg] at h
  | case3 c rest hno hnil ih =>
    have hcd : containsReg rest = false := by
      rw [containsReg.eq_def] at h
      split at h
      · exact absurd h (by decide)
      · rename_i x r heq
        cases heq
        exact h
      · rename_i heq
        exact absurd heq (by simp)
    rw [ih hcd] at hnil
    exact absurd hnil (by simp)
  | case4 c rest hno p ps hp ih =>
    have hcd : containsReg rest = false := by
      rw [containsReg.eq_def] at h
      split at h
      · exact absurd h (by decide)
      · rename_i x r heq
        cases heq
        exact h
      · rename_i heq
        exact absurd heq (by simp)
    rw [ih hcd] at hp
    rw [splitRegStr.eq_def]
    split
    · rename_i heq
      exact absurd heq (by simp)
    · rename_i r heq
      cases heq
      exact (hno r rfl rfl).elim
    · rename_i c2 r2 hno2 heq
      cases heq
      rw [ih hcd]

theorem formatElementFuel_divFree (n : Nat) (x : List Char)
    (h : containsDiv (sqrtStep x) = false) :
    formatElementFuel (n + 1) x = sqrtStep x := by
  simp only [formatElementFuel, h, Bool.false_eq_true, if_false]

theorem format_element_divFree (x : List Char) (h : containsDiv (sqrtStep x) = false) :
    format_element x = sqrtStep x :=
  formatElementFuel_divFree x.length x h

theorem format_element_plain (t : List Char) (hs : containsSqrt t = false)
    (hd : containsDiv t = false) : format_element t = t := by
  have hstep : sqrtStep t = t := by simp [sqrtStep, hs]
  rw [format_element_divFree t (by rw [hstep]; exact hd), hstep]

/-- Claim C2 counterexample: the source splits on every occurrence of div,
so a token with two div markers yields three parts, the length-two check
fails, and the token comes back unchanged — not as the nested encoding
the claim asserts. -/
theorem c2_div_first_split_counterexample :
    ¬ format_element ("1div2div3".toList) =
        ['@', 'D', 'I', 'V', '{', '1', ';', '@', 'D', 'I', 'V', '{', '2', ';', '3', '}', '}'] := by
  decide

/-- Claim C2 as amended: the token (after the sqrt rewrite) is split on
EVERY occurrence of div; unless that split yields exactly two parts
(empty parts allowed), the div rewrite is skipped and the possibly
sqrt-rewritten token is returned unchanged; with exactly two parts both
are recursively encoded into an @DIV group.  In particular a token with
two div markers is returned unchanged. -/
theorem c2_div_split_amended :
    (∀ element : List Char, (splitDiv (sqrtStep element)).length ≠ 2 →
      format_element element = sqrtStep element) ∧
    (∀ element l r : List Char, splitDiv (sqrtStep element) = [l, r] →
      containsDiv (sqrtStep l) = false → containsDiv (sqrtStep r) = false →
      format_element element =
        ['@', 'D', 'I', 'V', '{'] ++
          (format_element l ++ ([';'] ++ (format_element r ++ ['}'])))) ∧
    format_element ("1div2div3".toList) = "1div2div3".toList := by
  refine ⟨?_, ?_, by decide⟩
  · intro element h
    cases hc : containsDiv (sqrtStep element) with
    | false => exact format_element_divFree element hc
    | true =>
      rw [format_element]
      simp only [formatElementFuel, hc, if_true]
      split
      · rename_i l r heq
        rw [heq] at h
        simp at h
      · rfl
  · intro element l r hsp hl hr
    have hc : containsDiv (sqrtStep element) = true := by
      cases hc : containsDiv (sqrtStep element) with
      | true => rfl
      | false =>
        rw [containsDiv_false_splitDiv _ hc] at hsp
        simp at hsp
    have hne : element ≠ [] := by
      intro he
      rw [he] at hsp
      have : sqrtStep ([] : List Char) = [] := by decide
      rw [this] at hsp
      simp [splitDiv] at hsp
    obtain ⟨m, hm⟩ : ∃ m, element.length = m + 1 := by
      cases element with
      | nil => exact absurd rfl hne
      | cons a as => exact ⟨as.length, rfl⟩
    rw [format_element, hm]
    simp only [formatElementFuel, hc, if_true, hsp]
    simp only [hl, hr, Bool.false_eq_true, if_false]
    rw [format_element_divFree l hl, format_element_divFree r hr]

/-- Witness for the amended C2 theorem at concrete inputs: a token whose
sqrt-rewritten form has three div parts is returned unchanged, and a
token with exactly one div (with an empty left part, which the source
accepts) is encoded as an @DIV group. -/
theorem c2_div_split_amended_witness :
    format_element ("1div2div3".toList) = sqrtStep ("1div2div3".toList) ∧
    format_element ("div2".toList) =
      ['@', 'D', 'I', 'V', '{'] ++
        (format_element ([] : List Char) ++ ([';'] ++ (format_element ['2'] ++ ['}']))) := by
  constructor
  · exact c2_div_split_amended.1 ("1div2div3".toList) (by decide)
  · exact c2_div_split_amended.2.1 ("div2".toList) [] ['2'] (by decide) (by decide) (by decide)

/-- Claim C4: serializing the 2-by-2 matrix [[1,2],[3,4]] yields exactly
the canonical encoding: rows joined cellwise by semicolons, consecutive
rows separated by a brace-semicolon-brace group, the whole wrapped in
@MATX with doubled braces. -/
theorem c4_matrix_encoding :
    matrixStr (fun n : Nat => (toString n).toList) [[1, 2], [3, 4]] =
      ['@', 'M', 'A', 'T', 'X', '{', '{', '1', ';', '2', '}', ';', '{', '3', ';', '4', '}', '}'] := by
  decide

/-- Claim C6: every sqrt-digits occurrence is rewritten to an @RT group,
the substitution is global, and it happens before the div split. -/
theorem c6_sqrt_rewrite :
    format_element ("sqrt9".toList) = ['@', 'R', 'T', '{', '9', '}'] ∧
    format_element ("sqrt4div2".toList) =
      ['@', 'D', 'I', 'V', '{', '@', 'R', 'T', '{', '4', '}', ';', '2', '}'] ∧
    format_element ("sqrt2sqrt3".toList) =
      ['@', 'R', 'T', '{', '2', '}', '@', 'R', 'T', '{', '3', '}'] := by
  refine ⟨by decide, by decide, by decide⟩

theorem floatList_eq_map (pyFloat : List Char → Option Rat) (tokens : List (List Char))
    (hplain : ∀ t ∈ tokens, containsSqrt t = false ∧ containsDiv t = false)
    (hok : ∀ t ∈ tokens, (pyFloat t).isSome) :
    floatList pyFloat tokens = some (tokens.map (fun t => (pyFloat t).getD 0)) := by
  induction tokens with
  | nil => rfl
  | cons el rest ih =>
    obtain ⟨v, hv⟩ := Option.isSome_iff_exists.mp (hok el (by simp))
    have hpl := hplain el (by simp)
    rw [List.map_cons]
    simp only [floatList, format_element_plain el hpl.1 hpl.2, hv,
      ih (fun t ht => hplain t (by simp [ht])) (fun t ht => hok t (by simp [ht]))]
    rfl

theorem parse_matrix_getD (vals : List A) (d : A) (r c : Nat)
    (hlen : vals.length = r * c) (i j : Nat) (hi : i < r) (hj : j < c) :
    ((parse_matrix vals r c).getD i []).getD j d = vals.getD (i * c + j) d := by
  have hidx : i * c + j < r * c := by
    calc i * c + j < i * c + c := by omega
    _ = (i + 1) * c := by ring
    _ ≤ r * c := Nat.mul_le_mul_right c hi
  have h1 : (parse_matrix vals r c).getD i [] = (vals.drop (i * c)).take c := by
    rw [parse_matrix, List.getD_eq_getElem?_getD, List.getElem?_map,
      List.getElem?_range hi]
    rfl
  rw [h1, List.getD_eq_getElem?_getD, List.getD_eq_getElem?_getD,
    List.getElem?_take, List.getElem?_drop]
  rw [if_pos hj]

/-- Claim C5: for r, c at least 1 and r*c plain numeric tokens that all
convert, the build pipeline (encode each token with format_element,
convert with the float parser, reshape row-major) produces the full value
list in order, and the cell at row i, column j of the reshaped grid is
the parsed value of input token number i*c+j; encoding a plain numeric
token is the identity, so the parse applies to the token itself. -/
theorem c5_build_row_major (pyFloat : List Char → Option Rat) (r c : Nat)
    (hr : 1 ≤ r) (hc : 1 ≤ c) (tokens : List (List Char))
    (hlen : tokens.length = r * c)
    (hplain : ∀ t ∈ tokens, containsSqrt t = false ∧ containsDiv t = false)
    (hok : ∀ t ∈ tokens, (pyFloat t).isSome) :
    floatList pyFloat tokens = some (tokens.map (fun t => (pyFloat t).getD 0)) ∧
    ∀ i j, i < r → j < c →
      some (((parse_matrix (tokens.map (fun t => (pyFloat t).getD 0)) r c).getD i []).getD j 0) =
        pyFloat (tokens.getD (i * c + j) []) := by
  refine ⟨floatList_eq_map pyFloat tokens hplain hok, ?_⟩
  intro i j hi hj
  have hidx : i * c + j < tokens.length := by
    rw [hlen]
    calc i * c + j < i * c + c := by omega
    _ = (i + 1) * c := by ring
    _ ≤ r * c := Nat.mul_le_mul_right c hi
  rw [parse_matrix_getD _ _ r c (by simp [hlen]) i j hi hj]
  rw [List.getD_eq_getElem _ _ (by simpa using hidx), List.getD_eq_getElem _ _ hidx]
  rw [List.getElem_map]
  obtain ⟨v, hv⟩ := Option.isSome_iff_exists.mp (hok _ (List.getElem_mem hidx))
  rw [hv]
  rfl

theorem c5_build_row_major_witness :
    floatList pyFloatDigits [['1'], ['2'], ['3'], ['4']] =
      some (([['1'], ['2'], ['3'], ['4']] : List (List Char)).map
        (fun t => (pyFloatDigits t).getD 0)) ∧
    some (((parse_matrix
        (([['1'], ['2'], ['3'], ['4']] : List (List Char)).map
          (fun t => (pyFloatDigits t).getD 0)) 2 2).getD 1 []).getD 0 0) =
      pyFloatDigits (([['1'], ['2'], ['3'], ['4']] : List (List Char)).getD (1 * 2 + 0) []) := by
  constructor
  · exact (c5_build_row_major pyFloatDigits 2 2 (by decide) (by decide)
      [['1'], ['2'], ['3'], ['4']] (by decide) (by decide) (by decide)).1
  · exact (c5_build_row_major pyFloatDigits 2 2 (by decide) (by decide)
      [['1'], ['2'], ['3'], ['4']] (by decide) (by decide) (by decide)).2 1 0 (by decide) (by decide)

/-- Claim C9 counterexample: the register dictionary is initialized with
the identity register I mapped to the integer 1, not to an unset value,
so not every register starts unset. -/
theorem c9_initial_registers_counterexample :
    ¬ Regs.get registers_init ['I'] = some PyVal.pyNone := by decide

/-- Claim C9 as amended: before any store, registers A, B, C and D map to
None (unset), while register I is initialized to the integer scalar 1. -/
theorem c9_initial_registers_amended :
    Regs.get registers_init ['A'] = some PyVal.pyNone ∧
    Regs.get registers_init ['B'] = some PyVal.pyNone ∧
    Regs.get registers_init ['C'] = some PyVal.pyNone ∧
    Regs.get registers_init ['D'] = some PyVal.pyNone ∧
    Regs.get registers_init ['I'] = some (PyVal.pyInt 1) := by decide

/-- Claim C10: in matrix generation the trailing directive accepts only
the letters A, B, C, D; any other letter — including I, which is a
register — makes the whole call abort with the invalid-register message,
no matrix, no clipboard write and no register change. -/
theorem c10_generate_rejects_non_abcd (pyFloat : List Char → Option Rat)
    (showF : Rat → List Char) (rows cols : Int) (tokens : List (List Char)) (regs : Regs)
    (hgt : rows * cols < (tokens.length : Int)) (h2 : 2 ≤ tokens.length)
    (hreg : (tokens.getD (tokens.length - 2) []).map Char.toLower = ['r', 'e', 'g'])
    (hletter : (tokens.getD (tokens.length - 1) []).map Char.toUpper ∉ [['A'], ['B'], ['C'], ['D']]) :
    generate_matrix pyFloat showF rows cols tokens regs =
      some ⟨regs, Option.none, [Msg.invalidRegister]⟩ := by
  simp only [generate_matrix]
  rw [if_pos hgt, if_neg (by omega : ¬ tokens.length < 2), if_pos (Or.inr hletter)]

theorem c10_generate_rejects_non_abcd_witness :
    ((2 : Int) * 2 < (([[ '1'], ['2'], ['3'], ['4'], ['r','e','g'], ['I']] : List (List Char)).length : Int)) ∧
    generate_matrix (fun _ => Option.none) (fun _ => []) 2 2
        [['1'], ['2'], ['3'], ['4'], ['r','e','g'], ['I']] registers_init =
      some ⟨registers_init, Option.none, [Msg.invalidRegister]⟩ :=
  ⟨by decide,
    c10_generate_rejects_non_abcd (fun _ => Option.none) (fun _ => []) 2 2
      [['1'], ['2'], ['3'], ['4'], ['r','e','g'], ['I']] registers_init
      (by decide) (by decide) (by decide) (by decide)⟩

/-- Claim C7 counterexample: five tokens for a 2-by-2 request, with no
trailing register directive.  The stripped element count (5) differs from
rows*cols (4), yet the source reports the invalid-register message — the
count being larger than rows*cols makes it read the last two tokens as a
directive attempt — not the shape-mismatch message the claim asserts. -/
theorem c7_shape_mismatch_counterexample :
    generate_matrix (fun _ => Option.none) (fun _ => []) 2 2
        [['1'], ['2'], ['3'], ['4'], ['5']] registers_init =
      some ⟨registers_init, Option.none, [Msg.invalidRegister]⟩ := by
  decide

/-- Claim C7 as amended: the shape-mismatch report (with no matrix, no
clipboard write and no register change) is produced whenever the element
count differs from rows*cols AND the excess-count path, when taken, finds
a valid directive in the last two tokens: with count at most rows*cols but
unequal, and with count above rows*cols, a well-formed directive in the
last two tokens, and the stripped count unequal to rows*cols.  When the
count exceeds rows*cols but the last two tokens are not a valid directive,
the invalid-register error is reported instead (still with no matrix, no
clipboard write and no register change). -/
theorem c7_shape_mismatch_amended :
    (∀ (pf : List Char → Option Rat) (sf : Rat → List Char) (rows cols : Int)
      (tokens : List (List Char)) (regs : Regs),
      (tokens.length : Int) ≤ rows * cols → (tokens.length : Int) ≠ rows * cols →
      generate_matrix pf sf rows cols tokens regs =
        some ⟨regs, Option.none, [Msg.shapeMismatch]⟩) ∧
    (∀ (pf : List Char → Option Rat) (sf : Rat → List Char) (rows cols : Int)
      (tokens : List (List Char)) (regs : Regs),
      rows * cols < (tokens.length : Int) → 2 ≤ tokens.length →
      (tokens.getD (tokens.length - 2) []).map Char.toLower = ['r', 'e', 'g'] →
      (tokens.getD (tokens.length - 1) []).map Char.toUpper ∈ [['A'], ['B'], ['C'], ['D']] →
      ((tokens.length : Int) - 2) ≠ rows * cols →
      generate_matrix pf sf rows cols tokens regs =
        some ⟨regs, Option.none, [Msg.shapeMismatch]⟩) := by
  constructor
  · intro pf sf rows cols tokens regs hle hne
    rw [generate_matrix, if_neg (by omega : ¬ rows * cols < (tokens.length : Int))]
    rw [generateRest, if_pos hne]
  · intro pf sf rows cols tokens regs hgt h2 hreg hin hne
    simp only [generate_matrix]
    rw [if_pos hgt, if_neg (by omega : ¬ tokens.length < 2),
      if_neg (by push_neg; exact ⟨hreg, hin⟩)]
    have hlen2 : (((tokens.take (tokens.length - 2)).length : Nat) : Int) =
        (tokens.length : Int) - 2 := by
      rw [List.length_take]
      omega
    rw [generateRest, if_pos (by rw [hlen2]; exact hne)]

theorem c7_shape_mismatch_amended_witness :
    generate_matrix (fun _ => Option.none) (fun _ => []) 2 2
        [['1'], ['2'], ['3']] registers_init =
      some ⟨registers_init, Option.none, [Msg.shapeMismatch]⟩ ∧
    generate_matrix (fun _ => Option.none) (fun _ => []) 2 2
        [['1'], ['2'], ['3'], ['4'], ['5'], ['r', 'e', 'g'], ['A']] registers_init =
      some ⟨registers_init, Option.none, [Msg.shapeMismatch]⟩ :=
  ⟨c7_shape_mismatch_amended.1 (fun _ => Option.none) (fun _ => []) 2 2
      [['1'], ['2'], ['3']] registers_init (by decide) (by decide),
    c7_shape_mismatch_amended.2 (fun _ => Option.none) (fun _ => []) 2 2
      [['1'], ['2'], ['3'], ['4'], ['5'], ['r', 'e', 'g'], ['A']] registers_init
      (by decide) (by decide) (by decide) (by decide) (by decide)⟩

/-- Claim C1: in every expression-evaluation call that reaches the try
block (directive extraction did not die on its unpacking error), an
exception raised by the substituted-expression evaluation is caught, the
invalid-equation message carrying the underlying text is enqueued, and
the register store after the call is exactly the store before it. -/
theorem c1_eval_failure_caught (evalFn : Regs → List Char → Except (List Char) PyVal)
    (equation : List Char) (regs : Regs) (e eqn : List Char)
    (regX : Option (List Char)) (msgs0 : List Msg)
    (hstep : directiveStep equation = some (eqn, regX, msgs0))
    (herr : evalFn regs (substRegisters eqn) = Except.error e) :
    evaluate_equation evalFn equation regs = some ⟨regs, msgs0 ++ [Msg.invalidEquation e]⟩ := by
  rw [evaluate_equation, hstep]
  dsimp only
  rw [herr]

theorem c1_eval_failure_caught_witness :
    directiveStep ("1+1".toList) = some ("1+1".toList, Option.none, []) ∧
    evaluate_equation (fun _ _ => Except.error ['b', 'a', 'd']) ("1+1".toList) registers_init =
      some ⟨registers_init, [] ++ [Msg.invalidEquation ['b', 'a', 'd']]⟩ :=
  ⟨by decide,
    c1_eval_failure_caught (fun _ _ => Except.error ['b', 'a', 'd']) ("1+1".toList)
      registers_init ['b', 'a', 'd'] ("1+1".toList) Option.none [] (by decide) rfl⟩

/-- Claim C3 counterexample: an expression in which the letters reg occur
twice.  The claim asserts the evaluator splits at the first occurrence and
proceeds to evaluate the left part; the source instead unpacks the
full split — three parts here — into two variables, which raises an
uncaught ValueError: the call dies (modelled as `Option.none`) and nothing
is evaluated, even with an evaluation oracle that always succeeds. -/
theorem c3_first_split_counterexample :
    evaluate_equation (fun _ _ => Except.ok (PyVal.pyInt 7)) ("AregBregC".toList)
      registers_init = Option.none := by
  decide

/-- Claim C3 as amended: when the letters reg occur exactly once the split
yields exactly two parts, the remainder is uppercased and its space
characters removed to form the candidate register name, and evaluation
proceeds on the substituted left part; when reg occurs more than once the
two-variable unpacking of the split fails and the call aborts without
evaluating anything. -/
theorem c3_directive_split_amended :
    (∀ equation l r : List Char, splitRegStr equation = [l, r] →
      directiveStep equation =
        (if replace1 ' ' [] (r.map Char.toUpper) ∈ regKeys then
          some (l, some (replace1 ' ' [] (r.map Char.toUpper)), ([] : List Msg))
        else some (l, Option.none, [Msg.invalidRegister]))) ∧
    (∀ (evalFn : Regs → List Char → Except (List Char) PyVal) (equation : List Char)
      (regs : Regs), 3 ≤ (splitRegStr equation).length →
      evaluate_equation evalFn equation regs = Option.none) ∧
    (∀ (evalFn : Regs → List Char → Except (List Char) PyVal)
      (equation l r : List Char) (regs : Regs) (v : PyVal),
      splitRegStr equation = [l, r] → evalFn regs (substRegisters l) = Except.ok v →
      ∃ res, evaluate_equation evalFn equation regs = some res ∧
        Msg.resultMsg v ∈ res.messages) := by
  have h1 : ∀ equation l r : List Char, splitRegStr equation = [l, r] →
      directiveStep equation =
        (if replace1 ' ' [] (r.map Char.toUpper) ∈ regKeys then
          some (l, some (replace1 ' ' [] (r.map Char.toUpper)), ([] : List Msg))
        else some (l, Option.none, [Msg.invalidRegister])) := by
    intro equation l r hsp
    have hcr : containsReg equation = true := by
      cases hcc : containsReg equation with
      | true => rfl
      | false =>
        rw [containsReg_false_splitRegStr _ hcc] at hsp
        simp at hsp
    simp only [directiveStep, hcr, if_true, hsp]
  refine ⟨h1, ?_, ?_⟩
  · intro evalFn equation regs hlen
    have hcr : containsReg equation = true := by
      cases hcc : containsReg equation with
      | true => rfl
      | false =>
        rw [containsReg_false_splitRegStr _ hcc] at hlen
        simp at hlen
    have hds : directiveStep equation = Option.none := by
      rcases hsp : splitRegStr equation with _ | ⟨a, _ | ⟨b, _ | ⟨c3, rest⟩⟩⟩
      · rw [hsp] at hlen
        simp at hlen
      · rw [hsp] at hlen
        simp at hlen
      · rw [hsp] at hlen
        simp at hlen
      · simp only [directiveStep, hcr, if_true, hsp]
    rw [evaluate_equation, hds]
  · intro evalFn equation l r regs v hsp hok
    by_cases hin : replace1 ' ' [] (r.map Char.toUpper) ∈ regKeys
    · refine ⟨⟨Regs.set regs (replace1 ' ' [] (r.map Char.toUpper)) v,
        [] ++ [Msg.storedInRegister (replace1 ' ' [] (r.map Char.toUpper)), Msg.resultMsg v]⟩,
        ?_, by simp⟩
      rw [evaluate_equation, h1 equation l r hsp, if_pos hin]
      dsimp only
      rw [hok]
    · refine ⟨⟨regs, [Msg.invalidRegister] ++ [Msg.resultMsg v]⟩, ?_, by simp⟩
      rw [evaluate_equation, h1 equation l r hsp, if_neg hin]
      dsimp only
      rw [hok]

theorem c3_directive_split_amended_witness :
    directiveStep ("AregB".toList) = some (['A'], some ['B'], []) ∧
    evaluate_equation (fun _ _ => Except.ok (PyVal.pyInt 7)) ("AregBregC".toList)
      registers_init = Option.none ∧
    (∃ res, evaluate_equation (fun _ _ => Except.ok (PyVal.pyInt 7)) ("AregB".toList)
      registers_init = some res ∧ Msg.resultMsg (PyVal.pyInt 7) ∈ res.messages) := by
  refine ⟨?_, ?_, ?_⟩
  · have h := c3_directive_split_amended.1 ("AregB".toList) ['A'] ['B'] (by decide)
    have hval : (if replace1 ' ' [] ((['B'] : List Char).map Char.toUpper) ∈ regKeys then
        some ((['A'] : List Char), some (replace1 ' ' [] ((['B'] : List Char).map Char.toUpper)),
          ([] : List Msg))
      else some (['A'], Option.none, [Msg.invalidRegister])) =
        some (['A'], some ['B'], ([] : List Msg)) := by decide
    rw [hval] at h
    exact h
  · exact c3_directive_split_amended.2.1 (fun _ _ => Except.ok (PyVal.pyInt 7))
      ("AregBregC".toList) registers_init (by decide)
  · exact c3_directive_split_amended.2.2 (fun _ _ => Except.ok (PyVal.pyInt 7))
      ("AregB".toList) ['A'] ['B'] registers_init (PyVal.pyInt 7) (by decide) rfl

/-- Claim C8: a trailing directive whose candidate name is outside the
key set makes the call enqueue the invalid-register message and carry on
with no store target: the left part is still evaluated, the result or the
caught failure is reported after the invalid-register message, and the
register store is returned unchanged in either case. -/
theorem c8_invalid_directive_nonfatal (evalFn : Regs → List Char → Except (List Char) PyVal)
    (equation l r : List Char) (regs : Regs)
    (hsp : splitRegStr equation = [l, r])
    (hinv : replace1 ' ' [] (r.map Char.toUpper) ∉ regKeys) :
    evaluate_equation evalFn equation regs =
      some (match evalFn regs (substRegisters l) with
        | Except.error e => ⟨regs, [Msg.invalidRegister, Msg.invalidEquation e]⟩
        | Except.ok v => ⟨regs, [Msg.invalidRegister, Msg.resultMsg v]⟩) := by
  have hcr : containsReg equation = true := by
    cases hcc : containsReg equation with
    | true => rfl
    | false =>
      rw [containsReg_false_splitRegStr _ hcc] at hsp
      simp at hsp
  have hds : directiveStep equation = some (l, Option.none, [Msg.invalidRegister]) := by
    simp only [directiveStep, hcr, if_true, hsp]
    rw [if_neg hinv]
  rw [evaluate_equation, hds]
  dsimp only
  cases hev : evalFn regs (substRegisters l) <;> rfl

theorem c8_invalid_directive_nonfatal_witness :
    splitRegStr ("reg Z".toList) = [[], [' ', 'Z']] ∧
    evaluate_equation (fun _ _ => Except.error ['o', 'o', 'p', 's']) ("reg Z".toList)
        registers_init =
      some ⟨registers_init, [Msg.invalidRegister, Msg.invalidEquation ['o', 'o', 'p', 's']]⟩ :=
  ⟨by decide,
    c8_invalid_directive_nonfatal (fun _ _ => Except.error ['o', 'o', 'p', 's'])
      ("reg Z".toList) [] [' ', 'Z'] registers_init (by decide) (by decide)⟩
